import Mathlib

/-!
Verification of the ranking pipeline of the Kusama validator resource center
(backend/lib/crawlers/ranking.js).  JavaScript numbers are modelled as `ℚ`
(the pipeline only performs exact decimal arithmetic on the quantities the
claims mention), big integers as `ℕ`, JS `undefined`/`null` string fields as
`Option String`, and fallible external calls as `Except`.  `NaN`-producing
divisions are modelled with `Option`.
-/

namespace Ranking

/-! ### Commission history and commission rating (ranking.js lines 90-127) -/

/-- One entry of `commissionHistory` as built by `getCommissionHistory`:
the era index and the commission in percent, `none` when the validator was
absent from that era's preferences (JS `null`).  The JS `toFixed(2)` string
formatting is elided; commissions are kept as exact rationals. -/
structure CommissionEntry where
  era : Nat
  commission : Option ℚ
deriving DecidableEq

instance : Inhabited CommissionEntry := ⟨⟨0, none⟩⟩

/-- JS evaluates `a > b` on two plain objects by converting both sides to
the primitive string "object Object" (bracketed), so the comparison at
ranking.js line 116 between two history entries is always false. -/
def jsObjGt (_a _b : CommissionEntry) : Bool := false

/-- `getCommissionRating` (ranking.js lines 108-127), with the history
comparison given the semantics JS actually assigns to it (`jsObjGt`). -/
def getCommissionRating (commission : ℚ) (commissionHistory : List CommissionEntry) : ℕ :=
  if commission ≠ 100 ∧ commission ≠ 0 then
    if commission > 10 then 1
    else if commission ≥ 5 then
      if commissionHistory.length > 1 ∧
          jsObjGt commissionHistory.headI (commissionHistory.getLastD default) then 3
      else 2
    else if commission < 5 then 3
    else 0
  else 0

/-- Numeric comparison of two optional commissions: true when both are
recorded and the first strictly exceeds the second. -/
def numGt (a b : Option ℚ) : Bool :=
  match a, b with
  | some x, some y => decide (x > y)
  | _, _ => false

/-- Modelled from the spec's words (section 4.3, commissionRating algorithm):
like `getCommissionRating` but the trend upgrade compares the numeric value of
the oldest recorded commission with the newest, as the spec requires. -/
def commissionRatingSpec (commission : ℚ) (commissionHistory : List CommissionEntry) : ℕ :=
  if commission = 0 ∨ commission = 100 then 0
  else if commission > 10 then 1
  else if 5 ≤ commission then
    if commissionHistory.length > 1 ∧
        numGt (commissionHistory.headI).commission
          ((commissionHistory.getLastD default).commission) then 3
    else 2
  else 3

/-! ### Thousand validator program fetch (ranking.js lines 13-21, 446-451) -/

/-- `getThousandValidators`: the HTTP fetch either yields the candidate stash
list or fails; a failure is caught and an empty list returned. -/
def getThousandValidators (response : Except String (List String)) : List String :=
  match response with
  | Except.ok data => data
  | Except.error _ => []

/-- `includedThousandValidators` for one validator (ranking.js lines 446-448):
whether some candidate's stash equals this validator's stash address. -/
def includedThousandValidators (thousandValidators : List String) (stashAddress : String) : Bool :=
  thousandValidators.any (fun stash => stash == stashAddress)

/-! ### Scheduler (ranking.js lines 183-189 and 916-923) -/

/-- The configuration fields the scheduler reads. -/
structure SchedulerConfig where
  startDelay : ℕ
  pollingTime : ℕ

/-- One invocation of the exported `start` function: the pipeline body runs
inside try/catch (lines 197 and 916-918), a failure is only logged, and
`setTimeout` (lines 919-922) re-arms the next invocation `pollingTime`
milliseconds later in both cases.  The first component is the error escaping
the invocation, the second the delay armed for the next invocation. -/
def startBody (cfg : SchedulerConfig) (pipeline : Except String Unit) : Option String × ℕ :=
  match pipeline with
  | Except.ok _ => (none, cfg.pollingTime)
  | Except.error _ => (none, cfg.pollingTime)

/-- Start time of the n-th run: the first run begins after `startDelay`
(line 186), and since `setTimeout` fires only after the current run has
returned, run n+1 begins `pollingTime` after run n ends, whatever the runs'
durations and outcomes. -/
def runStart (cfg : SchedulerConfig) (duration : ℕ → ℕ) : ℕ → ℕ
  | 0 => cfg.startDelay
  | n + 1 => runStart cfg duration n + duration n + cfg.pollingTime

/-- End time of the n-th run. -/
def runEnd (cfg : SchedulerConfig) (duration : ℕ → ℕ) (n : ℕ) : ℕ :=
  runStart cfg duration n + duration n

theorem runStart_le_succ (cfg : SchedulerConfig) (duration : ℕ → ℕ) (n : ℕ) :
    runStart cfg duration n ≤ runStart cfg duration (n + 1) := by
  simp only [runStart]
  omega

theorem runEnd_le_runStart (cfg : SchedulerConfig) (duration : ℕ → ℕ)
    {m n : ℕ} (h : m < n) : runEnd cfg duration m ≤ runStart cfg duration n := by
  induction n with
  | zero => omega
  | succ k ih =>
    rcases Nat.lt_succ_iff_lt_or_eq.mp h with hk | hk
    · exact le_trans (ih hk) (runStart_le_succ cfg duration k)
    · subst hk
      simp only [runEnd, runStart]
      omega

/-! ### JS Array.prototype.sort model (used at ranking.js lines 317-318 and 664) -/

/-- Insertion step of the JS sort: the new element `x` is placed at the
leftmost position of the already sorted list whose element `y` satisfies
`c x y < 0` (this is the placement V8's binary insertion sort computes from
the user comparator). -/
def jsInsert (c : α → α → ℤ) (x : α) : List α → List α
  | [] => [x]
  | y :: ys => if c x y < 0 then x :: y :: ys else y :: jsInsert c x ys

/-- JS `Array.prototype.sort` with comparator `c`, modelled as left-to-right
insertion with `jsInsert`. -/
def jsSortBy (c : α → α → ℤ) (l : List α) : List α :=
  l.foldl (fun acc x => jsInsert c x acc) []

theorem jsInsert_perm (c : α → α → ℤ) (x : α) (l : List α) :
    (jsInsert c x l).Perm (x :: l) := by
  induction l with
  | nil => simp [jsInsert]
  | cons y ys ih =>
    simp only [jsInsert]
    split
    · exact List.Perm.refl _
    · exact List.Perm.trans (List.Perm.cons y ih) (List.Perm.swap x y ys)

theorem jsSortBy_foldl_perm (c : α → α → ℤ) (l acc : List α) :
    (l.foldl (fun acc x => jsInsert c x acc) acc).Perm (l ++ acc) := by
  induction l generalizing acc with
  | nil => simp
  | cons x xs ih =>
    simp only [List.foldl_cons, List.cons_append]
    refine List.Perm.trans (ih (jsInsert c x acc)) ?_
    exact List.Perm.trans (List.Perm.append_left xs (jsInsert_perm c x acc)) List.perm_middle

theorem jsSortBy_perm (c : α → α → ℤ) (l : List α) : (jsSortBy c l).Perm l := by
  simpa using jsSortBy_foldl_perm c l []

/-! ### minimum_stake (ranking.js lines 309-319, 349-354) -/

/-- The comparator passed to sort the collected nominator stakes
(ranking.js lines 317-318): it returns 1 when `a ≤ b` and 0 otherwise, and
never a negative number. -/
def minStakeCmp (a b : ℕ) : ℤ := if a ≤ b then 1 else 0

/-- The sorted nominator stake list of the code. -/
def sortNominatorStakes (stakes : List ℕ) : List ℕ := jsSortBy minStakeCmp stakes

/-- `minimumStake` (ranking.js line 319): the first element of the sorted
list, which is then written to the `minimum_stake` total row (line 350). -/
def minimumStake (stakes : List ℕ) : Option ℕ := (sortNominatorStakes stakes).head?

/-- The comparator never returns a negative number, so `jsInsert` always
appends at the end and the "sorted" list is just the input list. -/
theorem sortNominatorStakes_eq (stakes : List ℕ) : sortNominatorStakes stakes = stakes := by
  have key : ∀ (l acc : List ℕ), acc ++ l = l.foldl (fun a x => jsInsert minStakeCmp x a) acc := by
    intro l
    induction l with
    | nil => intro acc; simp
    | cons x xs ih =>
      intro acc
      have happ : jsInsert minStakeCmp x acc = acc ++ [x] := by
        induction acc with
        | nil => simp [jsInsert]
        | cons y ys ihy =>
          simp only [jsInsert, List.cons_append]
          have : ¬ minStakeCmp x y < 0 := by
            simp only [minStakeCmp]
            split <;> omega
          simp [this, ihy]
      simp only [List.foldl_cons, happ.symm.symm, happ]
      rw [← ih (acc ++ [x])]
      simp
  simpa using (key stakes []).symm

/-! ### Relative performance (ranking.js lines 222-225, 599-604, 665-667) -/

/-- `minPerformance` after the first map: it starts at 0 (line 225) and is
lowered to each performance below it (lines 602-604). -/
def minPerfFold (perfs : List ℚ) : ℚ :=
  perfs.foldl (fun m p => if p < m then p else m) 0

/-- `maxPerformance` after the first map: it starts at 0 (line 224) and is
raised to each performance above it (lines 599-601). -/
def maxPerfFold (perfs : List ℚ) : ℚ :=
  perfs.foldl (fun m p => if p > m then p else m) 0

/-- `relativePerformance` of a validator with performance `p` (lines 666-667):
`(p - minPerformance) / (maxPerformance - minPerformance)`.  When the
denominator is zero the JS division yields `NaN` (or an infinity), modelled
as `none`; the `toFixed(6)` formatting is elided. -/
def relativePerformance (perfs : List ℚ) (p : ℚ) : Option ℚ :=
  if maxPerfFold perfs - minPerfFold perfs = 0 then none
  else some ((p - minPerfFold perfs) / (maxPerfFold perfs - minPerfFold perfs))

theorem minPerfFold_eq_zero {perfs : List ℚ} (h : ∀ x ∈ perfs, 0 ≤ x) :
    minPerfFold perfs = 0 := by
  induction perfs with
  | nil => rfl
  | cons p ps ih =>
    have hp : ¬ p < 0 := not_lt.mpr (h p (List.mem_cons_self p ps))
    have : minPerfFold (p :: ps) = minPerfFold ps := by
      simp [minPerfFold, hp]
    rw [this]
    exact ih (fun x hx => h x (List.mem_cons_of_mem p hx))

theorem foldl_max_init_le (l : List ℚ) (a : ℚ) :
    a ≤ l.foldl (fun m p => if p > m then p else m) a := by
  induction l generalizing a with
  | nil => simp
  | cons p ps ih =>
    simp only [List.foldl_cons]
    refine le_trans ?_ (ih (if p > a then p else a))
    split
    · linarith
    · linarith

theorem foldl_max_le_of_mem {l : List ℚ} {x : ℚ} (hx : x ∈ l) (a : ℚ) :
    x ≤ l.foldl (fun m p => if p > m then p else m) a := by
  induction l generalizing a with
  | nil => simp at hx
  | cons p ps ih =>
    simp only [List.foldl_cons]
    rcases List.mem_cons.mp hx with h | h
    · subst h
      refine le_trans ?_ (foldl_max_init_le ps (if x > a then x else a))
      split <;> linarith
    · exact ih h _

theorem foldl_max_mem_or (l : List ℚ) (a : ℚ) :
    l.foldl (fun m p => if p > m then p else m) a = a ∨
      l.foldl (fun m p => if p > m then p else m) a ∈ l := by
  induction l generalizing a with
  | nil => simp
  | cons p ps ih =>
    simp only [List.foldl_cons]
    rcases ih (if p > a then p else a) with h | h
    · rw [h]
      split
      · exact Or.inr (List.mem_cons_self p ps)
      · exact Or.inl rfl
    · exact Or.inr (List.mem_cons_of_mem p h)

theorem maxPerfFold_nonneg (perfs : List ℚ) : 0 ≤ maxPerfFold perfs :=
  foldl_max_init_le perfs 0

theorem le_maxPerfFold {perfs : List ℚ} {x : ℚ} (hx : x ∈ perfs) : x ≤ maxPerfFold perfs :=
  foldl_max_le_of_mem hx 0

theorem maxPerfFold_mem_or (perfs : List ℚ) :
    maxPerfFold perfs = 0 ∨ maxPerfFold perfs ∈ perfs :=
  foldl_max_mem_or perfs 0

/-! ### Identity and the component ratings of the scorer (ranking.js lines 23-88, 129-139, 410-618) -/

/-- A registrar judgement kind, as tested by `isVerifiedIdentity`. -/
inductive Judgement
  | feePaid
  | knownGood
  | reasonable
  | other
deriving DecidableEq

/-- The on-chain identity fields the scorer reads; `none` models a JS
`undefined` field. -/
structure Identity where
  display : Option String
  displayParent : Option String
  legal : Option String
  web : Option String
  email : Option String
  twitter : Option String
  riot : Option String
  judgements : List Judgement

/-- JS truthiness of an optional string field: defined and non-empty. -/
def truthy : Option String → Bool
  | some s => s ≠ ""
  | none => false

/-- `isVerifiedIdentity` (ranking.js lines 23-30). -/
def isVerifiedIdentity (identity : Identity) : Bool :=
  if identity.judgements.length = 0 then false
  else (identity.judgements.filter (fun j => !(j == Judgement.feePaid))).any
    (fun j => j == Judgement.knownGood || j == Judgement.reasonable)

/-- `getName` (ranking.js lines 32-42). -/
def getName (identity : Identity) : String :=
  if truthy identity.displayParent && truthy identity.display then
    identity.displayParent.getD "" ++ "/" ++ identity.display.getD ""
  else identity.display.getD ""

/-- `subIdentity` (ranking.js lines 48-58). -/
def subIdentity (identity : Identity) : Bool :=
  truthy identity.displayParent && truthy identity.display

/-- `getIdentityRating` (ranking.js lines 60-69). -/
def getIdentityRating (name : String) (verifiedIdentity hasAllFields : Bool) : ℕ :=
  if verifiedIdentity && hasAllFields then 3
  else if verifiedIdentity && !hasAllFields then 2
  else if name ≠ "" then 1
  else 0

/-- Result of `parseIdentity`. -/
structure ParsedIdentity where
  verifiedIdentity : Bool
  hasSubIdentity : Bool
  name : String
  identityRating : ℕ

/-- `parseIdentity` (ranking.js lines 71-88); `hasAllFields` is the JS
truthiness of the conjunction of the six identity fields. -/
def parseIdentity (identity : Identity) : ParsedIdentity :=
  let verifiedIdentity := isVerifiedIdentity identity
  let hasSubIdentity := subIdentity identity
  let name := getName identity
  let hasAllFields := truthy identity.display && truthy identity.legal &&
    truthy identity.web && truthy identity.email && truthy identity.twitter &&
    truthy identity.riot
  ⟨verifiedIdentity, hasSubIdentity, name, getIdentityRating name verifiedIdentity hasAllFields⟩

/-- `activeRating` (ranking.js line 414). -/
def getActiveRating (active : Bool) : ℕ := if active then 2 else 0

/-- `addressCreationRating` (ranking.js lines 420-443): when the identity has
a parent the better (smaller) of the two creation blocks is banded against
quarters of the block height, otherwise the stash creation block is. -/
def getAddressCreationRating (stashCreatedAtBlock : ℕ) (parentCreatedAtBlock : Option ℕ)
    (blockHeight : ℕ) : ℕ :=
  match parentCreatedAtBlock with
  | some parentBlock =>
    let best := if parentBlock > stashCreatedAtBlock then stashCreatedAtBlock else parentBlock
    if (best : ℚ) ≤ (blockHeight : ℚ) / 4 then 3
    else if (best : ℚ) ≤ (blockHeight : ℚ) / 4 * 2 then 2
    else if (best : ℚ) ≤ (blockHeight : ℚ) / 4 * 3 then 1
    else 0
  | none =>
    if (stashCreatedAtBlock : ℚ) ≤ (blockHeight : ℚ) / 4 then 3
    else if (stashCreatedAtBlock : ℚ) ≤ (blockHeight : ℚ) / 4 * 2 then 2
    else if (stashCreatedAtBlock : ℚ) ≤ (blockHeight : ℚ) / 4 * 3 then 1
    else 0

/-- `subAccountsRating` (ranking.js line 475). -/
def getSubAccountsRating (hasSubIdentity : Bool) : ℕ := if hasSubIdentity then 2 else 0

/-- `nominatorsRating` (ranking.js lines 484-487). -/
def getNominatorsRating (nominators maxNominatorRewardedPerValidator : ℕ) : ℕ :=
  if nominators > 0 ∧ nominators ≤ maxNominatorRewardedPerValidator then 2 else 0

/-- `slashRating` (ranking.js line 495). -/
def getSlashRating (slashed : Bool) : ℕ := if slashed then 0 else 2

/-- `governanceRating` (ranking.js lines 528-533). -/
def getGovernanceRating (councilBacking activeInGovernance : Bool) : ℕ :=
  if councilBacking && activeInGovernance then 3
  else if councilBacking || activeInGovernance then 2
  else 0

/-- `eraPointsRating` (ranking.js line 584): the validator's era points sum
against the average of the per-era totals over the active validators. -/
def getEraPointsRating (eraPointsHistoryValidator : ℕ) (eraPointsAverage : ℚ) : ℕ :=
  if (eraPointsHistoryValidator : ℚ) > eraPointsAverage then 2 else 0

/-! ### Era window and per-era histories (ranking.js lines 90-106, 209-211, 536-578) -/

/-- One record of `erasPreferences` as returned per requested era by the
staking derive: the era index and, per validator stash, the commission in
parts per billion. -/
structure EraPrefsRec where
  era : ℕ
  validators : List (String × ℕ)

/-- One record of `erasPoints`: the era index and, per validator stash, the
era points earned. -/
structure EraPointsRec where
  era : ℕ
  validators : List (String × ℕ)

/-- `getCommissionHistory` (ranking.js lines 90-106): one output entry per
`erasPreferences` record in order; the commission is `prefs.commission / 1e7`
when the validator is recorded for that era and `null` otherwise. -/
def getCommissionHistory (accountId : String) (erasPreferences : List EraPrefsRec) :
    List CommissionEntry :=
  erasPreferences.map fun r =>
    match r.validators.lookup accountId with
    | some prefs => ⟨r.era, some ((prefs : ℚ) / 10000000)⟩
    | none => ⟨r.era, none⟩

/-- Payout state of one era in `payoutHistory`. -/
inductive PayoutStatus
  | paid
  | pending
  | inactive
deriving DecidableEq

/-- One entry of `eraPointsHistory`. -/
structure EraPointsEntry where
  era : ℕ
  points : ℕ
deriving DecidableEq

/-- One entry of `payoutHistory`. -/
structure PayoutEntry where
  era : ℕ
  status : PayoutStatus
deriving DecidableEq

/-- `getPayoutRating` (ranking.js lines 129-139): banded count of eras with a
pending payout. -/
def getPayoutRating (payoutHistory : List PayoutEntry) (erasPerDay : ℕ) : ℕ :=
  let pendingEras := (payoutHistory.filter (fun e => e.status == PayoutStatus.pending)).length
  if pendingEras ≤ erasPerDay then 3
  else if pendingEras ≤ 3 * erasPerDay then 2
  else if pendingEras < 7 * erasPerDay then 1
  else 0

/-- The per-validator data accumulated by the era loop. -/
structure EraDerived where
  eraPointsHistory : List EraPointsEntry
  payoutHistory : List PayoutEntry
  activeEras : ℕ
  performance : ℚ

/-- The era loop of the scorer (ranking.js lines 536-578): one iteration per
`erasPoints` record.  An era where the validator earned points appends a
points entry and a paid or pending payout entry and accumulates the era
performance; an inactive era appends a zero points entry and an inactive
payout entry.  `eraTotalStake` gives the validator's total exposure of an
era already divided by `10 ^ tokenDecimals`. -/
def buildEraRecords (stashAddress : String) (claimedRewards : List ℕ) (commission : ℚ)
    (eraTotalStake : ℕ → ℚ) : List EraPointsRec → EraDerived
  | [] => ⟨[], [], 0, 0⟩
  | r :: rs =>
    let rest := buildEraRecords stashAddress claimedRewards commission eraTotalStake rs
    match r.validators.lookup stashAddress with
    | some points =>
      ⟨⟨r.era, points⟩ :: rest.eraPointsHistory,
       ⟨r.era, if r.era ∈ claimedRewards then PayoutStatus.paid else PayoutStatus.pending⟩ ::
         rest.payoutHistory,
       rest.activeEras + 1,
       (points : ℚ) * (1 - commission / 100) / eraTotalStake r.era + rest.performance⟩
    | none =>
      ⟨⟨r.era, 0⟩ :: rest.eraPointsHistory,
       ⟨r.era, PayoutStatus.inactive⟩ :: rest.payoutHistory,
       rest.activeEras, rest.performance⟩

/-- `eraIndexes` (ranking.js lines 209-211): the tail of the historic era
list, keeping at most `historySize` eras. -/
def eraIndexesOf (erasHistoric : List ℕ) (historySize : ℕ) : List ℕ :=
  erasHistoric.drop (erasHistoric.length - historySize)

theorem eraIndexesOf_length (erasHistoric : List ℕ) (historySize : ℕ) :
    (eraIndexesOf erasHistoric historySize).length = min historySize erasHistoric.length := by
  simp only [eraIndexesOf, List.length_drop]
  omega

theorem buildEraRecords_eraPointsHistory_era (stashAddress : String) (claimedRewards : List ℕ)
    (commission : ℚ) (eraTotalStake : ℕ → ℚ) (recs : List EraPointsRec) :
    ((buildEraRecords stashAddress claimedRewards commission eraTotalStake
        recs).eraPointsHistory).map EraPointsEntry.era = recs.map EraPointsRec.era := by
  induction recs with
  | nil => rfl
  | cons r rs ih =>
    simp only [buildEraRecords]
    cases r.validators.lookup stashAddress <;> simpa using ih

theorem buildEraRecords_payoutHistory_era (stashAddress : String) (claimedRewards : List ℕ)
    (commission : ℚ) (eraTotalStake : ℕ → ℚ) (recs : List EraPointsRec) :
    ((buildEraRecords stashAddress claimedRewards commission eraTotalStake
        recs).payoutHistory).map PayoutEntry.era = recs.map EraPointsRec.era := by
  induction recs with
  | nil => rfl
  | cons r rs ih =>
    simp only [buildEraRecords]
    cases r.validators.lookup stashAddress <;> simpa using ih

theorem getCommissionHistory_era (accountId : String) (erasPreferences : List EraPrefsRec) :
    (getCommissionHistory accountId erasPreferences).map CommissionEntry.era =
      erasPreferences.map EraPrefsRec.era := by
  induction erasPreferences with
  | nil => rfl
  | cons r rs ih =>
    simp only [getCommissionHistory, List.map_cons] at ih ⊢
    cases r.validators.lookup accountId <;> simpa using ih

/-! ### Ranking sort and rank assignment (ranking.js lines 664-675) -/

/-- The scored validator data the final sort reads: the total rating, and a
tag standing for the rest of the record (so ties are distinguishable). -/
structure RatedItem where
  totalRating : ℕ
  tag : ℕ
deriving DecidableEq

instance : Inhabited RatedItem := ⟨⟨0, 0⟩⟩

/-- The comparator of the ranking sort (ranking.js line 664): 1 when the
first rating is smaller, otherwise -1 — also for ties, where a correct
comparator would return 0. -/
def ratingCmp (a b : RatedItem) : ℤ :=
  if a.totalRating < b.totalRating then 1 else -1

/-- The sorted ranking. -/
def sortRanking (l : List RatedItem) : List RatedItem := jsSortBy ratingCmp l

/-- Rank assignment (ranking.js lines 665-675): position in the sorted list
plus one. -/
def assignRanks (l : List RatedItem) : List (ℕ × RatedItem) :=
  (sortRanking l).enum.map (fun p => (p.1 + 1, p.2))

theorem ratingCmp_neg_iff (a b : RatedItem) :
    ratingCmp a b < 0 ↔ b.totalRating ≤ a.totalRating := by
  simp only [ratingCmp]
  split_ifs with h
  · simp
    omega
  · simp
    omega

theorem mem_jsInsert {c : α → α → ℤ} {x z : α} {l : List α} :
    z ∈ jsInsert c x l ↔ z = x ∨ z ∈ l := by
  rw [(jsInsert_perm c x l).mem_iff]
  simp

theorem jsInsert_rating_sorted (x : RatedItem) (l : List RatedItem)
    (h : List.Sorted (fun a b : RatedItem => b.totalRating ≤ a.totalRating) l) :
    List.Sorted (fun a b : RatedItem => b.totalRating ≤ a.totalRating)
      (jsInsert ratingCmp x l) := by
  induction l with
  | nil => simp [jsInsert]
  | cons y ys ih =>
    rw [List.sorted_cons] at h
    obtain ⟨hy, hys⟩ := h
    simp only [jsInsert]
    split_ifs with hc
    · rw [ratingCmp_neg_iff] at hc
      rw [List.sorted_cons]
      refine ⟨?_, List.sorted_cons.mpr ⟨hy, hys⟩⟩
      intro b hb
      rcases List.mem_cons.mp hb with rfl | hb
      · exact hc
      · exact le_trans (hy b hb) hc
    · rw [ratingCmp_neg_iff] at hc
      push_neg at hc
      rw [List.sorted_cons]
      refine ⟨?_, ih hys⟩
      intro b hb
      rcases mem_jsInsert.mp hb with rfl | hb
      · exact le_of_lt hc
      · exact hy b hb

theorem sortRanking_sorted (l : List RatedItem) :
    List.Sorted (fun a b : RatedItem => b.totalRating ≤ a.totalRating) (sortRanking l) := by
  have key : ∀ (l acc : List RatedItem),
      List.Sorted (fun a b : RatedItem => b.totalRating ≤ a.totalRating) acc →
      List.Sorted (fun a b : RatedItem => b.totalRating ≤ a.totalRating)
        (l.foldl (fun a x => jsInsert ratingCmp x a) acc) := by
    intro l
    induction l with
    | nil => intro acc hacc; simpa using hacc
    | cons x xs ih =>
      intro acc hacc
      exact ih (jsInsert ratingCmp x acc) (jsInsert_rating_sorted x acc hacc)
  exact key l [] (by simp)

/-! ### The scorer's composition (ranking.js lines 410-618) -/

/-- The inputs of the scoring of one validator, pre-derived as the
surrounding code does: the flags and counts the rating bands read.
`parentCreatedAtBlock` is present exactly when `identity.parent` is set. -/
structure ScoreInput where
  active : Bool
  identity : Identity
  stashCreatedAtBlock : ℕ
  parentCreatedAtBlock : Option ℕ
  blockHeight : ℕ
  nominatorsCount : ℕ
  maxNominatorRewardedPerValidator : ℕ
  slashed : Bool
  commission : ℚ
  commissionHistory : List CommissionEntry
  councilBacking : Bool
  activeInGovernance : Bool
  eraPointsHistoryValidator : ℕ
  eraPointsAverage : ℚ
  payoutHistory : List PayoutEntry
  erasPerDay : ℕ

/-- The component ratings and the total of one scored validator. -/
structure ScoreOutput where
  activeRating : ℕ
  addressCreationRating : ℕ
  identityRating : ℕ
  subAccountsRating : ℕ
  nominatorsRating : ℕ
  commissionRating : ℕ
  eraPointsRating : ℕ
  slashRating : ℕ
  governanceRating : ℕ
  payoutRating : ℕ
  totalRating : ℕ

/-- The scoring of one validator (ranking.js lines 410-618): each component
rating as the code computes it, and `totalRating` as their sum
(lines 609-618). -/
def scoreValidator (inp : ScoreInput) : ScoreOutput :=
  let activeRating := getActiveRating inp.active
  let addressCreationRating := getAddressCreationRating inp.stashCreatedAtBlock
    inp.parentCreatedAtBlock inp.blockHeight
  let parsed := parseIdentity inp.identity
  let identityRating := parsed.identityRating
  let subAccountsRating := getSubAccountsRating parsed.hasSubIdentity
  let nominatorsRating := getNominatorsRating inp.nominatorsCount
    inp.maxNominatorRewardedPerValidator
  let commissionRating := getCommissionRating inp.commission inp.commissionHistory
  let eraPointsRating := getEraPointsRating inp.eraPointsHistoryValidator inp.eraPointsAverage
  let slashRating := getSlashRating inp.slashed
  let governanceRating := getGovernanceRating inp.councilBacking inp.activeInGovernance
  let payoutRating := getPayoutRating inp.payoutHistory inp.erasPerDay
  ⟨activeRating, addressCreationRating, identityRating, subAccountsRating, nominatorsRating,
   commissionRating, eraPointsRating, slashRating, governanceRating, payoutRating,
   activeRating + addressCreationRating + identityRating + subAccountsRating +
     nominatorsRating + commissionRating + eraPointsRating + slashRating +
     governanceRating + payoutRating⟩

theorem getActiveRating_range (active : Bool) :
    getActiveRating active = 0 ∨ getActiveRating active = 2 := by
  cases active <;> simp [getActiveRating]

theorem getAddressCreationRating_range (s : ℕ) (p : Option ℕ) (h : ℕ) :
    getAddressCreationRating s p h = 0 ∨ getAddressCreationRating s p h = 1 ∨
      getAddressCreationRating s p h = 2 ∨ getAddressCreationRating s p h = 3 := by
  unfold getAddressCreationRating
  cases p <;> simp only <;> split_ifs <;> simp

theorem getIdentityRating_range (name : String) (v a : Bool) :
    getIdentityRating name v a = 0 ∨ getIdentityRating name v a = 1 ∨
      getIdentityRating name v a = 2 ∨ getIdentityRating name v a = 3 := by
  unfold getIdentityRating
  split_ifs <;> simp

theorem getSubAccountsRating_range (b : Bool) :
    getSubAccountsRating b = 0 ∨ getSubAccountsRating b = 2 := by
  cases b <;> simp [getSubAccountsRating]

theorem getNominatorsRating_range (n m : ℕ) :
    getNominatorsRating n m = 0 ∨ getNominatorsRating n m = 2 := by
  unfold getNominatorsRating
  split_ifs <;> simp

theorem getCommissionRating_range (c : ℚ) (hist : List CommissionEntry) :
    getCommissionRating c hist = 0 ∨ getCommissionRating c hist = 1 ∨
      getCommissionRating c hist = 2 ∨ getCommissionRating c hist = 3 := by
  unfold getCommissionRating
  split_ifs <;> simp

theorem getEraPointsRating_range (v : ℕ) (avg : ℚ) :
    getEraPointsRating v avg = 0 ∨ getEraPointsRating v avg = 2 := by
  unfold getEraPointsRating
  split_ifs <;> simp

theorem getSlashRating_range (b : Bool) :
    getSlashRating b = 0 ∨ getSlashRating b = 2 := by
  cases b <;> simp [getSlashRating]

theorem getGovernanceRating_range (c a : Bool) :
    getGovernanceRating c a = 0 ∨ getGovernanceRating c a = 2 ∨
      getGovernanceRating c a = 3 := by
  cases c <;> cases a <;> simp [getGovernanceRating]

theorem getPayoutRating_range (ph : List PayoutEntry) (e : ℕ) :
    getPayoutRating ph e = 0 ∨ getPayoutRating ph e = 1 ∨
      getPayoutRating ph e = 2 ∨ getPayoutRating ph e = 3 := by
  simp only [getPayoutRating]
  split_ifs <;> simp

/-! ### Cluster-based random hiding (ranking.js lines 176-180, 714-748) -/

/-- The fields of a ranked validator the hiding step reads and writes. -/
structure ClusterValidator where
  rank : ℕ
  clusterName : String
  clusterMembers : ℕ
  showClusterMember : Bool
deriving DecidableEq

instance : Inhabited ClusterValidator := ⟨⟨0, "", 0, true⟩⟩

/-- The number of members to show for a cluster size (ranking.js lines
719-733); the default 2 applies to every size of at most 2.  `Math.floor` on
the float products equals exact natural division for the sizes involved. -/
def showCount (clusterSize : ℕ) : ℕ :=
  if clusterSize > 50 then clusterSize * 2 / 10
  else if clusterSize > 20 then clusterSize * 4 / 10
  else if clusterSize > 10 then clusterSize * 6 / 10
  else if clusterSize > 2 then clusterSize * 8 / 10
  else 2

/-- JS `array.slice(0, n)` with a possibly negative `n`: a negative end
counts from the end of the array. -/
def jsSlice (l : List α) (n : ℤ) : List α :=
  if n < 0 then l.take (l.length - (-n).toNat) else l.take n.toNat

/-- The ranks hidden for one cluster name (loop body, ranking.js lines
716-738): the members are the ranked validators with this cluster name, the
cluster size is read from the first member's `clusterMembers` field, and
`hide = clusterSize - show` ranks are taken from the shuffled member rank
list.  `getRandom`'s shuffle (line 178) is modelled by the oracle `σ`,
constrained to permute its input where the claims need it. -/
def clusterSliceOf (ranking : List ClusterValidator) (σ : List ℕ → List ℕ)
    (c : String) : List ℕ :=
  let members := ranking.filter (fun v => v.clusterName == c)
  let clusterSize := members.headI.clusterMembers
  jsSlice (σ (members.map ClusterValidator.rank))
    ((clusterSize : ℤ) - (showCount clusterSize : ℤ))

/-- `validatorsToHide` (ranking.js lines 714-739): the concatenation of the
hidden rank lists of all clusters. -/
def validatorsToHide (ranking : List ClusterValidator) (clusters : List String)
    (σ : List ℕ → List ℕ) : List ℕ :=
  clusters.foldl (fun acc c => acc ++ clusterSliceOf ranking σ c) []

/-- The marking pass (ranking.js lines 740-747): a validator whose rank was
selected gets `showClusterMember := false`, all others are unchanged. -/
def applyHiding (ranking : List ClusterValidator) (toHide : List ℕ) : List ClusterValidator :=
  ranking.map (fun v =>
    if toHide.contains v.rank then { v with showClusterMember := false } else v)

theorem mem_validatorsToHide {ranking : List ClusterValidator} {clusters : List String}
    {σ : List ℕ → List ℕ} {x : ℕ} :
    x ∈ validatorsToHide ranking clusters σ ↔
      ∃ c ∈ clusters, x ∈ clusterSliceOf ranking σ c := by
  have key : ∀ (cs : List String) (acc : List ℕ),
      (x ∈ cs.foldl (fun acc c => acc ++ clusterSliceOf ranking σ c) acc ↔
        x ∈ acc ∨ ∃ c ∈ cs, x ∈ clusterSliceOf ranking σ c) := by
    intro cs
    induction cs with
    | nil => intro acc; simp
    | cons c cs ih =>
      intro acc
      simp only [List.foldl_cons]
      rw [ih]
      simp only [List.mem_append, List.exists_mem_cons_iff]
      tauto
  simpa using key clusters []

theorem jsSlice_subset (l : List α) (n : ℤ) : jsSlice l n ⊆ l := by
  unfold jsSlice
  split_ifs <;> exact List.take_subset _ _

theorem jsSlice_nodup {l : List α} (h : l.Nodup) (n : ℤ) : (jsSlice l n).Nodup := by
  unfold jsSlice
  split_ifs <;> exact h.sublist (List.take_sublist _ _)

theorem showCount_lt {k : ℕ} (h : 3 ≤ k) : showCount k < k := by
  unfold showCount
  split_ifs <;> omega

/-- The number of ranks selected by the slice of one cluster whose stored
size equals its true member count: the truncated difference between the
cluster size and its show count (the negative `hide` of a singleton selects
nothing). -/
theorem clusterSlice_length {l : List ℕ} {k : ℕ} (hlen : l.length = k) (hk : 1 ≤ k) :
    (jsSlice l ((k : ℤ) - (showCount k : ℤ))).length = k - showCount k := by
  by_cases h3 : 3 ≤ k
  · have hlt := showCount_lt h3
    have hneg : ¬ ((k : ℤ) - (showCount k : ℤ) < 0) := by omega
    simp only [jsSlice, hneg, if_false, List.length_take]
    omega
  · interval_cases k
    · have h1 : showCount 1 = 2 := by decide
      rw [h1]
      simp only [jsSlice]
      norm_num
      omega
    · have h2 : showCount 2 = 2 := by decide
      rw [h2]
      simp only [jsSlice]
      norm_num

/-! ### Pareto dominance (ranking.js lines 685-708) -/

/-- The four fields the dominance loop compares. -/
structure DomRecord where
  relativePerformance : ℚ
  selfStake : ℕ
  activeEras : ℕ
  totalRating : ℕ
deriving DecidableEq

instance : Inhabited DomRecord := ⟨⟨0, 0, 0, 0⟩⟩

/-- The inner comparison of the dominance loop (ranking.js lines 692-698):
the opponent is at least as good on all four dimensions. -/
def dominatesB (opponent validator : DomRecord) : Bool :=
  decide (validator.relativePerformance ≤ opponent.relativePerformance) &&
  decide (validator.selfStake ≤ opponent.selfStake) &&
  decide (validator.activeEras ≤ opponent.activeEras) &&
  decide (validator.totalRating ≤ opponent.totalRating)

/-- The dominated flag of the validator at position `i` (ranking.js lines
686-703): some other entry of the ranking (JS compares object references,
so another list position) dominates it. -/
def dominatedAt (ranking : List DomRecord) (i : ℕ) : Bool :=
  (List.range ranking.length).any fun j =>
    decide (j ≠ i) && dominatesB (ranking.getD j default) (ranking.getD i default)

/-- The dominance pass over the whole ranking (ranking.js lines 685-708). -/
def markDominated (ranking : List DomRecord) : List Bool :=
  (List.range ranking.length).map (dominatedAt ranking)

/-! ### Claim theorems (first group) -/

/-- C1: the spec's banded commission rating demands an upgrade from 2 to 3
when the oldest recorded commission numerically exceeds the newest
(commission 7, history 12 then 7), but the code compares the two history
objects, which JS evaluates to false, so the code returns 2 where the
specified algorithm returns 3. -/
theorem c1_commission_trend_dead (Cx : CommissionEntry) :
    getCommissionRating 7 [⟨1, some 12⟩, ⟨2, some 7⟩] = 2 ∧
    commissionRatingSpec 7 [⟨1, some 12⟩, ⟨2, some 7⟩] = 3 ∧
    jsObjGt Cx Cx = false := by
  refine ⟨by norm_num [getCommissionRating, jsObjGt], ?_, rfl⟩
  norm_num [commissionRatingSpec, numGt]

/-- C4: the comparator used to sort the nominator stakes never returns a
negative number, so the sort leaves the list unchanged and the first element
stored as `minimum_stake` is just the first collected stake; on the stakes
2, 1 the code stores 2 although the smallest nominator stake is 1. -/
theorem c4_minimum_stake_bug :
    sortNominatorStakes [2, 1] = [2, 1] ∧
    minimumStake [2, 1] = some 2 ∧
    minimumStake [2, 1] ≠ some 1 := by
  refine ⟨?_, ?_, ?_⟩ <;> decide

/-- C8: when the thousand-validator HTTP fetch fails the pipeline continues
with the empty candidate list, and against the empty list every validator's
`includedThousandValidators` is false. -/
theorem c8_thousand_validator_outage (e : String) (stash : String) :
    getThousandValidators (Except.error e) = [] ∧
    includedThousandValidators (getThousandValidators (Except.error e)) stash = false := by
  constructor
  · rfl
  · rfl

/-- C9: whatever the pipeline body does, no error escapes an invocation of
`start` and the next run is armed `pollingTime` ms later; run n+1 starts
exactly `pollingTime` after run n ends, and runs never overlap. -/
theorem c9_scheduler (cfg : SchedulerConfig) (pipeline : Except String Unit)
    (duration : ℕ → ℕ) (m n : ℕ) (h : m < n) :
    (startBody cfg pipeline).1 = none ∧
    (startBody cfg pipeline).2 = cfg.pollingTime ∧
    runStart cfg duration (m + 1) = runEnd cfg duration m + cfg.pollingTime ∧
    runEnd cfg duration m ≤ runStart cfg duration n := by
  refine ⟨?_, ?_, rfl, runEnd_le_runStart cfg duration h⟩
  · cases pipeline <;> rfl
  · cases pipeline <;> rfl

/-- C9 witness: the scheduler facts at a concrete configuration, a failing
pipeline body and concrete run indexes. -/
theorem c9_scheduler_witness :
    (startBody ⟨5, 7⟩ (Except.error "boom")).1 = none ∧
    (startBody ⟨5, 7⟩ (Except.error "boom")).2 = (7 : ℕ) ∧
    runStart ⟨5, 7⟩ (fun _ => 3) (0 + 1) = runEnd ⟨5, 7⟩ (fun _ => 3) 0 + 7 ∧
    runEnd ⟨5, 7⟩ (fun _ => 3) 0 ≤ runStart ⟨5, 7⟩ (fun _ => 3) 1 :=
  c9_scheduler ⟨5, 7⟩ (Except.error "boom") (fun _ => 3) 0 1 (by decide)

/-- C2 counterexample: with performances 1 and 2 the globally minimum
performer (performance 1) receives relative performance one half, not 0;
when all performances equal 3 every validator receives 1, not 0; and when
all performances equal 0 the division yields NaN (`none`), not 0. -/
theorem c2_relative_performance_cex :
    relativePerformance [1, 2] 1 = some (1 / 2) ∧ (1 / 2 : ℚ) ≠ 0 ∧
    relativePerformance [3, 3] 3 = some 1 ∧
    relativePerformance [0, 0] 0 = none := by
  refine ⟨?_, by norm_num, ?_, ?_⟩ <;>
    norm_num [relativePerformance, maxPerfFold, minPerfFold]

/-- C2 amended: with `minPerformance` initialized to 0, when all performances
are nonnegative and at least one is positive every relative performance is a
real number in the interval from 0 to 1 and a maximum performer receives
exactly 1; when all performances are zero the result is NaN (`none`). -/
theorem c2_relative_performance (perfs : List ℚ) (p : ℚ) (hp : p ∈ perfs)
    (hpos : ∀ x ∈ perfs, 0 ≤ x) :
    ((∃ x ∈ perfs, 0 < x) →
      ∃ q, relativePerformance perfs p = some q ∧ 0 ≤ q ∧ q ≤ 1 ∧
        ((∀ x ∈ perfs, x ≤ p) → q = 1)) ∧
    ((∀ x ∈ perfs, x = 0) → relativePerformance perfs p = none) := by
  have hmin : minPerfFold perfs = 0 := minPerfFold_eq_zero hpos
  constructor
  · rintro ⟨x, hx, hxpos⟩
    have hM : 0 < maxPerfFold perfs := lt_of_lt_of_le hxpos (le_maxPerfFold hx)
    have hden : maxPerfFold perfs - minPerfFold perfs ≠ 0 := by
      rw [hmin]; simpa using ne_of_gt hM
    refine ⟨(p - minPerfFold perfs) / (maxPerfFold perfs - minPerfFold perfs), ?_, ?_, ?_, ?_⟩
    · simp [relativePerformance, hden]
    · rw [hmin]
      simp only [sub_zero]
      exact div_nonneg (hpos p hp) (le_of_lt hM)
    · rw [hmin]
      simp only [sub_zero]
      rw [div_le_one hM]
      exact le_maxPerfFold hp
    · intro hmax
      rw [hmin]
      simp only [sub_zero]
      have hMle : maxPerfFold perfs ≤ p := by
        rcases maxPerfFold_mem_or perfs with h0 | hmem
        · rw [h0]; exact hpos p hp
        · exact hmax _ hmem
      have : maxPerfFold perfs = p := le_antisymm hMle (le_maxPerfFold hp)
      rw [this]
      exact div_self (ne_of_gt (this ▸ hM))
  · intro hzero
    have hM0 : maxPerfFold perfs = 0 := by
      rcases maxPerfFold_mem_or perfs with h0 | hmem
      · exact h0
      · exact hzero _ hmem
    simp [relativePerformance, hM0, hmin]

/-- C2 witness: the amended statement instantiated at performances 1 and 2
and the maximum performer 2, whose relative performance is exactly 1. -/
theorem c2_relative_performance_witness :
    ((∃ x ∈ [(1 : ℚ), 2], 0 < x) →
      ∃ q, relativePerformance [1, 2] 2 = some q ∧ 0 ≤ q ∧ q ≤ 1 ∧
        ((∀ x ∈ [(1 : ℚ), 2], x ≤ 2) → q = 1)) ∧
    ((∀ x ∈ [(1 : ℚ), 2], x = 0) → relativePerformance [1, 2] 2 = none) :=
  c2_relative_performance [1, 2] 2 (by decide) (by decide)

/-- C10: assuming the staking derives return one record per requested era in
request order, the three derived arrays `eraPointsHistory`, `payoutHistory`
and `commissionHistory` have exactly one entry per era of the selected
window, hence length min(historySize, totalHistoric), and list the window's
eras in order. -/
theorem c10_era_histories (erasHistoric : List ℕ) (historySize : ℕ)
    (stashAddress accountId : String) (claimedRewards : List ℕ) (commission : ℚ)
    (eraTotalStake : ℕ → ℚ)
    (erasPoints : List EraPointsRec) (erasPreferences : List EraPrefsRec)
    (hPoints : erasPoints.map EraPointsRec.era = eraIndexesOf erasHistoric historySize)
    (hPrefs : erasPreferences.map EraPrefsRec.era = eraIndexesOf erasHistoric historySize) :
    (buildEraRecords stashAddress claimedRewards commission eraTotalStake
        erasPoints).eraPointsHistory.length = min historySize erasHistoric.length ∧
    (buildEraRecords stashAddress claimedRewards commission eraTotalStake
        erasPoints).payoutHistory.length = min historySize erasHistoric.length ∧
    (getCommissionHistory accountId erasPreferences).length =
      min historySize erasHistoric.length ∧
    (buildEraRecords stashAddress claimedRewards commission eraTotalStake
        erasPoints).eraPointsHistory.map EraPointsEntry.era =
      eraIndexesOf erasHistoric historySize ∧
    (buildEraRecords stashAddress claimedRewards commission eraTotalStake
        erasPoints).payoutHistory.map PayoutEntry.era =
      eraIndexesOf erasHistoric historySize ∧
    (getCommissionHistory accountId erasPreferences).map CommissionEntry.era =
      eraIndexesOf erasHistoric historySize := by
  have h1 := buildEraRecords_eraPointsHistory_era stashAddress claimedRewards commission
    eraTotalStake erasPoints
  have h2 := buildEraRecords_payoutHistory_era stashAddress claimedRewards commission
    eraTotalStake erasPoints
  have h3 := getCommissionHistory_era accountId erasPreferences
  rw [hPoints] at h1 h2
  rw [hPrefs] at h3
  have len1 := congrArg List.length h1
  have len2 := congrArg List.length h2
  have len3 := congrArg List.length h3
  simp only [List.length_map, eraIndexesOf_length] at len1 len2 len3
  exact ⟨len1, len2, len3, h1, h2, h3⟩

/-- C10 witness: the era histories of one validator over the concrete window
consisting of eras 11 and 12 out of the historic eras 10, 11, 12. -/
theorem c10_era_histories_witness :
    (buildEraRecords "alice" [11] 7 (fun _ => 1)
        [⟨11, [("alice", 5)]⟩, ⟨12, []⟩]).eraPointsHistory.length = min 2 [10, 11, 12].length ∧
    (buildEraRecords "alice" [11] 7 (fun _ => 1)
        [⟨11, [("alice", 5)]⟩, ⟨12, []⟩]).payoutHistory.length = min 2 [10, 11, 12].length ∧
    (getCommissionHistory "alice" [⟨11, [("alice", 120000000)]⟩, ⟨12, []⟩]).length =
      min 2 [10, 11, 12].length ∧
    (buildEraRecords "alice" [11] 7 (fun _ => 1)
        [⟨11, [("alice", 5)]⟩, ⟨12, []⟩]).eraPointsHistory.map EraPointsEntry.era =
      eraIndexesOf [10, 11, 12] 2 ∧
    (buildEraRecords "alice" [11] 7 (fun _ => 1)
        [⟨11, [("alice", 5)]⟩, ⟨12, []⟩]).payoutHistory.map PayoutEntry.era =
      eraIndexesOf [10, 11, 12] 2 ∧
    (getCommissionHistory "alice" [⟨11, [("alice", 120000000)]⟩, ⟨12, []⟩]).map
        CommissionEntry.era = eraIndexesOf [10, 11, 12] 2 :=
  c10_era_histories [10, 11, 12] 2 "alice" "alice" [11] 7 (fun _ => 1)
    [⟨11, [("alice", 5)]⟩, ⟨12, []⟩] [⟨11, [("alice", 120000000)]⟩, ⟨12, []⟩]
    (by decide) (by decide)

/-- C7: for every validator the total rating is exactly the sum of the ten
component ratings, and each component lies in its stated range. -/
theorem c7_total_rating_sum_and_ranges (inp : ScoreInput) :
    (scoreValidator inp).totalRating =
      (scoreValidator inp).activeRating + (scoreValidator inp).addressCreationRating +
      (scoreValidator inp).identityRating + (scoreValidator inp).subAccountsRating +
      (scoreValidator inp).nominatorsRating + (scoreValidator inp).commissionRating +
      (scoreValidator inp).eraPointsRating + (scoreValidator inp).slashRating +
      (scoreValidator inp).governanceRating + (scoreValidator inp).payoutRating ∧
    ((scoreValidator inp).activeRating = 0 ∨ (scoreValidator inp).activeRating = 2) ∧
    ((scoreValidator inp).addressCreationRating = 0 ∨
      (scoreValidator inp).addressCreationRating = 1 ∨
      (scoreValidator inp).addressCreationRating = 2 ∨
      (scoreValidator inp).addressCreationRating = 3) ∧
    ((scoreValidator inp).identityRating = 0 ∨ (scoreValidator inp).identityRating = 1 ∨
      (scoreValidator inp).identityRating = 2 ∨ (scoreValidator inp).identityRating = 3) ∧
    ((scoreValidator inp).subAccountsRating = 0 ∨ (scoreValidator inp).subAccountsRating = 2) ∧
    ((scoreValidator inp).nominatorsRating = 0 ∨ (scoreValidator inp).nominatorsRating = 2) ∧
    ((scoreValidator inp).commissionRating = 0 ∨ (scoreValidator inp).commissionRating = 1 ∨
      (scoreValidator inp).commissionRating = 2 ∨ (scoreValidator inp).commissionRating = 3) ∧
    ((scoreValidator inp).eraPointsRating = 0 ∨ (scoreValidator inp).eraPointsRating = 2) ∧
    ((scoreValidator inp).slashRating = 0 ∨ (scoreValidator inp).slashRating = 2) ∧
    ((scoreValidator inp).governanceRating = 0 ∨ (scoreValidator inp).governanceRating = 2 ∨
      (scoreValidator inp).governanceRating = 3) ∧
    ((scoreValidator inp).payoutRating = 0 ∨ (scoreValidator inp).payoutRating = 1 ∨
      (scoreValidator inp).payoutRating = 2 ∨ (scoreValidator inp).payoutRating = 3) := by
  refine ⟨rfl, ?_, ?_, ?_, ?_, ?_, ?_, ?_, ?_, ?_, ?_⟩
  · exact getActiveRating_range inp.active
  · exact getAddressCreationRating_range inp.stashCreatedAtBlock inp.parentCreatedAtBlock
      inp.blockHeight
  · exact getIdentityRating_range (getName inp.identity) (isVerifiedIdentity inp.identity) _
  · exact getSubAccountsRating_range (parseIdentity inp.identity).hasSubIdentity
  · exact getNominatorsRating_range inp.nominatorsCount inp.maxNominatorRewardedPerValidator
  · exact getCommissionRating_range inp.commission inp.commissionHistory
  · exact getEraPointsRating_range inp.eraPointsHistoryValidator inp.eraPointsAverage
  · exact getSlashRating_range inp.slashed
  · exact getGovernanceRating_range inp.councilBacking inp.activeInGovernance
  · exact getPayoutRating_range inp.payoutHistory inp.erasPerDay

/-- C5 counterexample: two validators with equal total rating 5, in input
order tag 0 then tag 1, come out of the ranking sort in the order tag 1 then
tag 0 — the comparator returns -1 instead of 0 on ties, so ties are not
broken by input position. -/
theorem c5_stability_cex :
    sortRanking [⟨5, 0⟩, ⟨5, 1⟩] = [⟨5, 1⟩, ⟨5, 0⟩] ∧
    sortRanking [⟨5, 0⟩, ⟨5, 1⟩] ≠ [⟨5, 0⟩, ⟨5, 1⟩] := by
  refine ⟨by decide, by decide⟩

/-- C5 amended: the final ranking is a permutation of the input sorted in
descending order of totalRating (tie order implementation-defined, not input
order), rank is assigned densely as 1..N in that order, and a smaller rank
never carries a smaller totalRating. -/
theorem c5_sort_and_rank (l : List RatedItem) (i j : ℕ) (hij : i < j)
    (hj : j < (sortRanking l).length) :
    (sortRanking l).Perm l ∧
    List.Sorted (fun a b : RatedItem => b.totalRating ≤ a.totalRating) (sortRanking l) ∧
    (assignRanks l).map Prod.fst = List.range' 1 l.length ∧
    ((sortRanking l).getD j default).totalRating ≤
      ((sortRanking l).getD i default).totalRating := by
  have hi : i < (sortRanking l).length := lt_trans hij hj
  refine ⟨jsSortBy_perm ratingCmp l, sortRanking_sorted l, ?_, ?_⟩
  · have hlen : (sortRanking l).length = l.length := (jsSortBy_perm ratingCmp l).length_eq
    simp only [assignRanks, List.map_map]
    have h1 : ((sortRanking l).enum.map fun p => ((fun q => (q.1 + 1, q.2)) p).1) =
        (sortRanking l).enum.map (fun p => p.1 + 1) := rfl
    calc ((sortRanking l).enum.map (Prod.fst ∘ fun p => (p.1 + 1, p.2)))
        = ((sortRanking l).enum.map Prod.fst).map (fun n => n + 1) := by
          rw [List.map_map]; rfl
      _ = (List.range (sortRanking l).length).map (fun n => n + 1) := by
          rw [List.enum_map_fst]
      _ = List.range' 1 l.length := by
          rw [hlen, List.range'_eq_map_range]
          exact List.map_congr_left (fun a _ => Nat.add_comm a 1)
  · have hfin : (⟨i, hi⟩ : Fin (sortRanking l).length) < ⟨j, hj⟩ := hij
    have hmono := (sortRanking_sorted l).rel_get_of_lt hfin
    simp only [List.get_eq_getElem] at hmono
    rw [List.getD_eq_getElem _ _ hj, List.getD_eq_getElem _ _ hi]
    exact hmono

/-- C5 witness: the amended statement at the concrete input of ratings 5 and
4 with positions 0 and 1. -/
theorem c5_sort_and_rank_witness :
    (sortRanking [⟨5, 0⟩, ⟨4, 1⟩]).Perm [⟨5, 0⟩, ⟨4, 1⟩] ∧
    List.Sorted (fun a b : RatedItem => b.totalRating ≤ a.totalRating)
      (sortRanking [⟨5, 0⟩, ⟨4, 1⟩]) ∧
    (assignRanks [⟨5, 0⟩, ⟨4, 1⟩]).map Prod.fst = List.range' 1 [(⟨5, 0⟩ : RatedItem), ⟨4, 1⟩].length ∧
    ((sortRanking [⟨5, 0⟩, ⟨4, 1⟩]).getD 1 default).totalRating ≤
      ((sortRanking [⟨5, 0⟩, ⟨4, 1⟩]).getD 0 default).totalRating :=
  c5_sort_and_rank [⟨5, 0⟩, ⟨4, 1⟩] 0 1 (by decide) (by decide)

/-- C6: a validator's dominated flag is true exactly when some other entry
of the ranking is at least as good on all four dimensions, and the entries
of the dominance pass are these flags; in particular, two entries identical
on all four dimensions are both marked dominated. -/
theorem c6_pareto_dominated (ranking : List DomRecord) (i : ℕ) (hi : i < ranking.length) :
    ((markDominated ranking).getD i false = dominatedAt ranking i) ∧
    (dominatedAt ranking i = true ↔
      ∃ j, j < ranking.length ∧ j ≠ i ∧
        dominatesB (ranking.getD j default) (ranking.getD i default) = true) ∧
    (∀ j, j < ranking.length → j ≠ i →
      ranking.getD j default = ranking.getD i default →
      dominatedAt ranking i = true ∧ dominatedAt ranking j = true) := by
  have hiff : ∀ k, dominatedAt ranking k = true ↔
      ∃ j, j < ranking.length ∧ j ≠ k ∧
        dominatesB (ranking.getD j default) (ranking.getD k default) = true := by
    intro k
    simp only [dominatedAt, List.any_eq_true, List.mem_range, Bool.and_eq_true,
      decide_eq_true_eq]
  refine ⟨?_, hiff i, ?_⟩
  · simp only [markDominated]
    rw [List.getD_eq_getElem _ _ (by simpa using hi)]
    simp
  · intro j hj hne heq
    have hrefl : ∀ r : DomRecord, dominatesB r r = true := by
      intro r
      simp [dominatesB]
    constructor
    · exact (hiff i).mpr ⟨j, hj, hne, by rw [heq]; exact hrefl _⟩
    · exact (hiff j).mpr ⟨i, hi, fun h => hne h.symm, by rw [heq]; exact hrefl _⟩

/-- C6 witness: two identical validators are both marked dominated, and the
flag of the first matches its existential characterization. -/
theorem c6_pareto_dominated_witness :
    dominatedAt [⟨1, 2, 3, 4⟩, ⟨1, 2, 3, 4⟩] 0 = true ∧
    dominatedAt [⟨1, 2, 3, 4⟩, ⟨1, 2, 3, 4⟩] 1 = true :=
  (c6_pareto_dominated [⟨1, 2, 3, 4⟩, ⟨1, 2, 3, 4⟩] 0 (by decide)).2.2 1 (by decide)
    (by decide) (by decide)

/-- C3 counterexample: two validators with displays that differ in their
first six characters but strip to the same cluster name each store
`clusterMembers = 1`; the hiding loop then computes `hide = 1 - 2 = -1` over
their two ranks, and JS `slice(0, -1)` selects one of them, so a validator
of a singleton cluster (clusterMembers = 1) ends up hidden. -/
theorem c3_singleton_hidden_cex :
    ((applyHiding [⟨1, "Foo", 1, true⟩, ⟨2, "Foo", 1, true⟩]
        (validatorsToHide [⟨1, "Foo", 1, true⟩, ⟨2, "Foo", 1, true⟩] ["Foo"] id)).filter
      (fun v => decide (v.clusterMembers ≤ 1) && !v.showClusterMember)).length = 1 := by
  decide

/-- C3 amended: for a cluster name whose members (the ranked validators
carrying that cluster name) all store `clusterMembers` equal to the true
member count k, the hiding step sets `showClusterMember = false` on exactly
k - show(k) members (truncated subtraction, so clusters of size 1 and 2 have
no member hidden), for every permutation the shuffle oracle may produce.
Without that agreement between `clusterMembers` and the member count the
counterexample applies. -/
theorem c3_cluster_hiding (ranking : List ClusterValidator) (clusters : List String)
    (σ : List ℕ → List ℕ) (C : String)
    (hσ : ∀ l, (σ l).Perm l)
    (hRanks : (ranking.map ClusterValidator.rank).Nodup)
    (hShow : ∀ v ∈ ranking, v.showClusterMember = true)
    (hC : C ∈ clusters)
    (hk : ∀ v ∈ ranking.filter (fun v => v.clusterName == C),
      v.clusterMembers = (ranking.filter (fun v => v.clusterName == C)).length)
    (hne : 1 ≤ (ranking.filter (fun v => v.clusterName == C)).length) :
    ((applyHiding ranking (validatorsToHide ranking clusters σ)).filter
        (fun v => v.clusterName == C && !v.showClusterMember)).length =
      (ranking.filter (fun v => v.clusterName == C)).length -
        showCount (ranking.filter (fun v => v.clusterName == C)).length := by
  have hinj : ∀ v ∈ ranking, ∀ w ∈ ranking, v.rank = w.rank → v = w := by
    intro v hv w hw hvw
    exact List.inj_on_of_nodup_map hRanks hv hw hvw
  have hA : ((applyHiding ranking (validatorsToHide ranking clusters σ)).filter
      (fun v => v.clusterName == C && !v.showClusterMember)).length =
      ((ranking.filter (fun v => v.clusterName == C)).filter
        (fun v => (validatorsToHide ranking clusters σ).contains v.rank)).length := by
    simp only [applyHiding]
    rw [← List.countP_eq_length_filter, List.countP_map, List.countP_eq_length_filter]
    have hpt : ∀ v ∈ ranking,
        ((fun v => v.clusterName == C && !v.showClusterMember) ∘
          (fun v => if (validatorsToHide ranking clusters σ).contains v.rank then
            { v with showClusterMember := false } else v)) v
        = (fun v => (validatorsToHide ranking clusters σ).contains v.rank &&
            (v.clusterName == C)) v := by
      intro v hv
      by_cases hcm : v.rank ∈ validatorsToHide ranking clusters σ
      · simp [Function.comp, hcm, hShow v hv]
      · simp [Function.comp, hcm, hShow v hv]
    rw [List.filter_congr hpt, List.filter_filter]
  rw [hA]
  have hBpt : ∀ v ∈ ranking.filter (fun v => v.clusterName == C),
      (validatorsToHide ranking clusters σ).contains v.rank =
        (clusterSliceOf ranking σ C).contains v.rank := by
    intro v hv
    have hvr : v ∈ ranking := (List.mem_filter.mp hv).1
    have hvC : v.clusterName = C := by simpa using (List.mem_filter.mp hv).2
    rw [Bool.eq_iff_iff, List.elem_iff, List.elem_iff]
    constructor
    · intro hmem
      rcases mem_validatorsToHide.mp hmem with ⟨c, hcmem, hslice⟩
      by_cases hcC : c = C
      · subst hcC
        exact hslice
      · exfalso
        have hsub : clusterSliceOf ranking σ c ⊆
            (ranking.filter (fun v => v.clusterName == c)).map ClusterValidator.rank := by
          intro y hy
          simp only [clusterSliceOf] at hy
          exact (hσ _).subset (jsSlice_subset _ _ hy)
        rcases List.mem_map.mp (hsub hslice) with ⟨w, hw, hwrank⟩
        have hwr : w ∈ ranking := (List.mem_filter.mp hw).1
        have hwc : w.clusterName = c := by simpa using (List.mem_filter.mp hw).2
        have hvw : w = v := hinj w hwr v hvr hwrank
        rw [hvw] at hwc
        exact hcC (hvC ▸ hwc.symm ▸ rfl)
    · intro hmem
      exact mem_validatorsToHide.mpr ⟨C, hC, hmem⟩
  rw [List.filter_congr hBpt]
  have hmsub : (ranking.filter (fun v => v.clusterName == C)).Sublist ranking :=
    List.filter_sublist _
  have hpos : ((ranking.filter (fun v => v.clusterName == C)).map
      ClusterValidator.rank).Nodup := hRanks.sublist (hmsub.map _)
  have hσnodup : (σ ((ranking.filter (fun v => v.clusterName == C)).map
      ClusterValidator.rank)).Nodup := ((hσ _).nodup_iff).mpr hpos
  have hsnodup : (clusterSliceOf ranking σ C).Nodup := by
    simp only [clusterSliceOf]
    exact jsSlice_nodup hσnodup _
  have hssub : clusterSliceOf ranking σ C ⊆
      (ranking.filter (fun v => v.clusterName == C)).map ClusterValidator.rank := by
    intro y hy
    simp only [clusterSliceOf] at hy
    exact (hσ _).subset (jsSlice_subset _ _ hy)
  have hmapfil : ((ranking.filter (fun v => v.clusterName == C)).filter
        (fun v => (clusterSliceOf ranking σ C).contains v.rank)).map ClusterValidator.rank =
      ((ranking.filter (fun v => v.clusterName == C)).map ClusterValidator.rank).filter
        (fun r => (clusterSliceOf ranking σ C).contains r) := by
    rw [List.filter_map]
    rfl
  have hperm : (((ranking.filter (fun v => v.clusterName == C)).map
        ClusterValidator.rank).filter
        (fun r => (clusterSliceOf ranking σ C).contains r)).Perm
      (clusterSliceOf ranking σ C) := by
    apply List.perm_of_nodup_nodup_toFinset_eq
    · exact hpos.filter _
    · exact hsnodup
    · ext a
      simp only [List.mem_toFinset, List.mem_filter, List.elem_iff]
      exact ⟨fun h => h.2, fun h => ⟨hssub h, h⟩⟩
  have hmem0 : (ranking.filter (fun v => v.clusterName == C)).headI ∈
      ranking.filter (fun v => v.clusterName == C) := by
    cases hm : ranking.filter (fun v => v.clusterName == C) with
    | nil => rw [hm] at hne; simp at hne
    | cons m ms => simp [List.headI]
  have hsize : (ranking.filter (fun v => v.clusterName == C)).headI.clusterMembers =
      (ranking.filter (fun v => v.clusterName == C)).length := hk _ hmem0
  have hσlen : (σ ((ranking.filter (fun v => v.clusterName == C)).map
      ClusterValidator.rank)).length =
      (ranking.filter (fun v => v.clusterName == C)).length := by
    rw [(hσ _).length_eq, List.length_map]
  have hE : (clusterSliceOf ranking σ C).length =
      (ranking.filter (fun v => v.clusterName == C)).length -
        showCount (ranking.filter (fun v => v.clusterName == C)).length := by
    simp only [clusterSliceOf]
    rw [hsize]
    exact clusterSlice_length hσlen hne
  calc ((ranking.filter (fun v => v.clusterName == C)).filter
        (fun v => (clusterSliceOf ranking σ C).contains v.rank)).length
      = (((ranking.filter (fun v => v.clusterName == C)).filter
          (fun v => (clusterSliceOf ranking σ C).contains v.rank)).map
          ClusterValidator.rank).length := (List.length_map _ _).symm
    _ = (((ranking.filter (fun v => v.clusterName == C)).map ClusterValidator.rank).filter
          (fun r => (clusterSliceOf ranking σ C).contains r)).length := by rw [hmapfil]
    _ = (clusterSliceOf ranking σ C).length := hperm.length_eq
    _ = (ranking.filter (fun v => v.clusterName == C)).length -
          showCount (ranking.filter (fun v => v.clusterName == C)).length := hE

/-- C3 witness: a cluster of three validators named A with stored size 3 has
exactly 3 - show(3) = 1 member hidden (identity shuffle oracle). -/
theorem c3_cluster_hiding_witness :
    ((applyHiding [⟨1, "A", 3, true⟩, ⟨2, "A", 3, true⟩, ⟨3, "A", 3, true⟩]
        (validatorsToHide [⟨1, "A", 3, true⟩, ⟨2, "A", 3, true⟩, ⟨3, "A", 3, true⟩]
          ["A"] id)).filter
      (fun v => v.clusterName == "A" && !v.showClusterMember)).length =
    (([⟨1, "A", 3, true⟩, ⟨2, "A", 3, true⟩, ⟨3, "A", 3, true⟩] :
        List ClusterValidator).filter (fun v => v.clusterName == "A")).length -
      showCount (([⟨1, "A", 3, true⟩, ⟨2, "A", 3, true⟩, ⟨3, "A", 3, true⟩] :
        List ClusterValidator).filter (fun v => v.clusterName == "A")).length :=
  c3_cluster_hiding [⟨1, "A", 3, true⟩, ⟨2, "A", 3, true⟩, ⟨3, "A", 3, true⟩] ["A"] id "A"
    (fun l => List.Perm.refl l) (by decide) (by decide) (by decide) (by decide) (by decide)
